import Mathlib

/-!
Shallow embedding of the tabular pipeline of the pyspark-tutorial repository.

The repository's notebooks read CSV data into DataFrames, normalize column
types (`fix_types` in 06_explain_plan.ipynb, `fix_dates` in
03_transformation.ipynb / 04_writing_data.ipynb), derive a `status` column,
join policies with claims, compute windowed rank / running totals, and
cross-tabulate.  This file models a DataFrame as a `Table` (a schema of
named, typed columns plus a list of rows of values) and each notebook
operation as a pure function on `Table`, following the engine semantics
documented in the repository's spec (permissive casts, SQL null handling)
and validated against the concrete outputs recorded in the notebooks.
-/

set_option maxRecDepth 8000

namespace PysparkTut

/-- A calendar date, as produced by parsing the `yyyyMMdd` wire format. -/
structure Date where
  year : Nat
  month : Nat
  day : Nat
  deriving DecidableEq, Repr

/-- Numeric encoding of a date; lexicographic comparison of (y, m, d)
agrees with comparison of this number. -/
def Date.toNat (d : Date) : Nat := d.year * 10000 + d.month * 100 + d.day

/-- A cell value: string, integer, date, or SQL null. -/
inductive Value where
  | str (s : String)
  | int (n : Int)
  | date (d : Date)
  | null
  deriving DecidableEq, Repr

/-- Declared column type, as reported by `df.dtypes`. -/
inductive DType where
  | string
  | integer
  | date
  deriving DecidableEq, Repr

/-- Schema entry for one column: name, declared type, declared nullability. -/
structure ColInfo where
  name : String
  dtype : DType
  nullable : Bool
  deriving DecidableEq, Repr

/-- A DataFrame: ordered schema and ordered rows; each row is positional,
row cell `i` belongs to schema column `i`. -/
structure Table where
  schema : List ColInfo
  rows : List (List Value)
  deriving DecidableEq, Repr

/-! ### String-to-number and string-to-date conversion -/

/-- Base-10 value of a digit list (assumed all digits). -/
def digitsVal (cs : List Char) : Nat :=
  cs.foldl (fun n c => n * 10 + (c.toNat - 48)) 0

/-- Parse a nonempty all-digit character list as a natural number. -/
def digitsNat (cs : List Char) : Option Nat :=
  if cs ≠ [] ∧ cs.all Char.isDigit then some (digitsVal cs) else none

/-- Parse a base-10 integer with optional leading minus sign; `none` for
anything malformed (permissive-cast source of nulls). -/
def strToInt (s : String) : Option Int :=
  match s.data with
  | [] => none
  | c :: cs =>
    if c = '-' then (digitsNat cs).map (fun n => -(n : Int))
    else (digitsNat (c :: cs)).map (fun n => (n : Int))

/-- Parse the 8-digit `yyyyMMdd` wire format into a calendar date;
malformed strings yield `none`. -/
def parseDate (s : String) : Option Date :=
  match s.data with
  | [c1, c2, c3, c4, c5, c6, c7, c8] =>
    if (c1 :: c2 :: c3 :: c4 :: c5 :: c6 :: [c7, c8]).all Char.isDigit then
      let y := digitsVal [c1, c2, c3, c4]
      let mo := digitsVal [c5, c6]
      let da := digitsVal [c7, c8]
      if 1 ≤ mo ∧ mo ≤ 12 ∧ 1 ≤ da ∧ da ≤ 31 then some ⟨y, mo, da⟩ else none
    else none
  | _ => none

/-- Semantics of `col(c).cast(IntegerType())`: strings parse or become
null, integers pass through, anything else becomes null. -/
def castInt : Value → Value
  | .str s => match strToInt s with
    | some n => .int n
    | none => .null
  | .int n => .int n
  | .date _ => .null
  | .null => .null

/-- Semantics of `to_date(col, "yyyyMMdd")`: strings parse or become null,
dates pass through, anything else becomes null. -/
def toDateValue : Value → Value
  | .str s => match parseDate s with
    | some d => .date d
    | none => .null
  | .date d => .date d
  | .int _ => .null
  | .null => .null

/-! ### The column classification and cast stage (`fix_types`) -/

/-- `suf` is a suffix of `s`; models Python `s.endswith(suf)`. -/
def strEndsWith (s suf : String) : Bool :=
  suf.data.isSuffixOf s.data

/-- The fixed integer-column allowlist `intcols` of `fix_types`. -/
def intcols : List String := ["premium", "sum_insured", "vehicle_age"]

/-- Models `dict(df.dtypes)[n]`: Python's `dict` keeps the value of the
last pair for a repeated key, so the last schema entry named `n` wins. -/
def dictDtype : List ColInfo → String → Option DType
  | [], _ => none
  | c :: cs, n =>
    match dictDtype cs n with
    | some d => some d
    | none => if c.name = n then some c.dtype else none

/-- Classification outcome for one column of `fix_types`. -/
inductive Action where
  | castInteger
  | parseDate8
  | keep
  deriving DecidableEq, Repr

/-- The classification rule of `fix_types`: allowlist membership first,
then the `_date`-suffix-and-string-dtype test, else keep. -/
def classifyName (schema : List ColInfo) (n : String) : Action :=
  if n ∈ intcols then .castInteger
  else if strEndsWith n "_date" = true ∧ dictDtype schema n = some .string then .parseDate8
  else .keep

/-- Value conversion applied by each classification outcome. -/
def applyAction : Action → Value → Value
  | .castInteger, v => castInt v
  | .parseDate8, v => toDateValue v
  | .keep, v => v

/-- Declared type after each classification outcome. -/
def actionDtype : Action → DType → DType
  | .castInteger, _ => .integer
  | .parseDate8, _ => .date
  | .keep, d => d

/-- Schema entry after `fix_types` (name and nullability preserved). -/
def fixEntry (schema : List ColInfo) (c : ColInfo) : ColInfo :=
  { c with dtype := actionDtype (classifyName schema c.name) c.dtype }

/-- One row after the `df.select(sel)` of `fix_types`: each cell is
converted according to its column's classification. -/
def fixRow (schema cols : List ColInfo) (row : List Value) : List Value :=
  List.zipWith (fun c v => applyAction (classifyName schema c.name) v) cols row

/-- The `fix_types` routine of 06_explain_plan.ipynb: walks `df.columns`,
casting allowlisted columns to integer, parsing string `*_date` columns as
dates, and keeping everything else; subsumes the `fix_dates` routine of
03_transformation.ipynb (which performs only the date part). -/
def fix_types (t : Table) : Table :=
  { schema := t.schema.map (fixEntry t.schema),
    rows := t.rows.map (fixRow t.schema t.schema) }

/-! ### Idempotence of the classification and cast stage -/

theorem castInt_castInt (v : Value) : castInt (castInt v) = castInt v := by
  cases v with
  | str s =>
    simp only [castInt]
    cases strToInt s <;> simp [castInt]
  | int n => rfl
  | date d => rfl
  | null => rfl

theorem fixEntry_name (s : List ColInfo) (c : ColInfo) : (fixEntry s c).name = c.name := rfl

theorem actionDtype_keep (d : DType) : actionDtype .keep d = d := rfl

theorem dictDtype_map_fixEntry (s : List ColInfo) (l : List ColInfo) (n : String) :
    dictDtype (l.map (fixEntry s)) n =
      (dictDtype l n).map (actionDtype (classifyName s n)) := by
  induction l with
  | nil => rfl
  | cons c cs ih =>
    simp only [List.map_cons, dictDtype, ih]
    cases hcs : dictDtype cs n with
    | some d => simp
    | none =>
      simp only [Option.map_none']
      by_cases hn : c.name = n
      · subst hn
        simp [fixEntry]
      · simp [fixEntry, hn]

theorem classifyName_map_fix (s : List ColInfo) (n : String) :
    classifyName (s.map (fixEntry s)) n =
      (if n ∈ intcols then Action.castInteger else Action.keep) := by
  by_cases h1 : n ∈ intcols
  · simp [classifyName, h1]
  · simp only [classifyName, if_neg h1]
    rw [dictDtype_map_fixEntry]
    by_cases h2 : strEndsWith n "_date" = true ∧ dictDtype s n = some DType.string
    · have hcl : classifyName s n = .parseDate8 := by
        simp [classifyName, h1, h2]
      rw [hcl, h2.2]
      simp [actionDtype]
    · have hcl : classifyName s n = .keep := by
        simp only [classifyName, if_neg h1, if_neg h2]
      rw [hcl]
      have hmap : (dictDtype s n).map (actionDtype .keep) = dictDtype s n := by
        cases dictDtype s n <;> rfl
      rw [hmap, if_neg h2]

theorem fixEntry_idem (s : List ColInfo) (c : ColInfo) :
    fixEntry (s.map (fixEntry s)) (fixEntry s c) = fixEntry s c := by
  simp only [fixEntry, fixEntry_name, classifyName_map_fix]
  by_cases h1 : c.name ∈ intcols
  · have hcl : classifyName s c.name = .castInteger := by simp [classifyName, h1]
    simp [h1, hcl, actionDtype]
  · simp [h1, actionDtype]

theorem applyAction_idem (s : List ColInfo) (c : ColInfo) (v : Value) :
    applyAction (classifyName (s.map (fixEntry s)) c.name)
        (applyAction (classifyName s c.name) v) =
      applyAction (classifyName s c.name) v := by
  rw [classifyName_map_fix]
  by_cases h1 : c.name ∈ intcols
  · have hcl : classifyName s c.name = .castInteger := by simp [classifyName, h1]
    simp [h1, hcl, applyAction, castInt_castInt]
  · simp [h1, applyAction]

theorem fixRow_idem (s : List ColInfo) (cols : List ColInfo) (row : List Value) :
    fixRow (s.map (fixEntry s)) (cols.map (fixEntry s)) (fixRow s cols row) =
      fixRow s cols row := by
  induction cols generalizing row with
  | nil => simp [fixRow]
  | cons c cs ih =>
    cases row with
    | nil => simp [fixRow]
    | cons v vs =>
      simp only [fixRow, List.map_cons, List.zipWith_cons_cons, List.cons.injEq]
      exact ⟨applyAction_idem s c v, ih vs⟩

/-- **C2.** The Column Classification & Cast Stage is idempotent: applying
`fix_types` twice to any Table yields the Table produced by applying it
once (columns already cast to a non-string type are passed through — or,
for allowlisted integer columns, re-cast value-identically — on the second
application). -/
theorem fix_types_idempotent (t : Table) : fix_types (fix_types t) = fix_types t := by
  show Table.mk _ _ = Table.mk _ _
  simp only [fix_types, Table.mk.injEq, List.map_map]
  constructor
  · apply List.map_congr_left
    intro c _
    exact fixEntry_idem t.schema c
  · apply List.map_congr_left
    intro row _
    exact fixRow_idem t.schema t.schema row

/-! ### The normalization invariant (values of each classified column) -/

/-- The cells of column `i`, gathered across all rows that have one. -/
def colCells (t : Table) (i : Nat) : List Value :=
  t.rows.filterMap (fun row => row[i]?)

/-- `v` is an integer value. -/
def Value.isIntV : Value → Bool
  | .int _ => true
  | _ => false

/-- `v` is a calendar-date value. -/
def Value.isDateV : Value → Bool
  | .date _ => true
  | _ => false

/-- `v` is an integer already or a string that parses as a base-10 integer
(the inputs on which the permissive integer cast does not produce null). -/
def intCastableB : Value → Bool
  | .int _ => true
  | .str s => (strToInt s).isSome
  | _ => false

/-- `v` is a date already or a string in well-formed `yyyyMMdd` format
(the inputs on which `to_date` does not produce null). -/
def dateParseableB : Value → Bool
  | .date _ => true
  | .str s => (parseDate s).isSome
  | _ => false

theorem getElem?_zipWithV {α β γ : Type} (f : α → β → γ) (l1 : List α) (l2 : List β)
    (i : Nat) :
    (List.zipWith f l1 l2)[i]? = (l1[i]?).bind fun a => (l2[i]?).map (f a) := by
  induction l1 generalizing l2 i with
  | nil => simp
  | cons a as ih =>
    cases l2 with
    | nil => simp
    | cons b bs =>
      cases i with
      | zero => simp
      | succ j => simpa using ih bs j

theorem dictDtype_eq_none (l : List ColInfo) (n : String)
    (h : n ∉ l.map ColInfo.name) : dictDtype l n = none := by
  induction l with
  | nil => rfl
  | cons c cs ih =>
    simp only [List.map_cons, List.mem_cons, not_or] at h
    simp only [dictDtype, ih h.2]
    have hne : ¬ c.name = n := fun hc => h.1 hc.symm
    simp [hne]

theorem dictDtype_nodup (l : List ColInfo) (hnd : (l.map ColInfo.name).Nodup)
    (i : Nat) (c : ColInfo) (hc : l[i]? = some c) :
    dictDtype l c.name = some c.dtype := by
  induction l generalizing i with
  | nil => simp at hc
  | cons c0 cs ih =>
    simp only [List.map_cons, List.nodup_cons] at hnd
    cases i with
    | zero =>
      simp only [List.getElem?_cons_zero, Option.some.injEq] at hc
      subst hc
      have hnone := dictDtype_eq_none cs _ hnd.1
      simp [dictDtype, hnone]
    | succ j =>
      simp only [List.getElem?_cons_succ] at hc
      simp [dictDtype, ih hnd.2 j hc]

theorem fixTypes_schema_getElem? (t : Table) (i : Nat) (hi : i < t.schema.length) :
    (fix_types t).schema[i]? = some (fixEntry t.schema t.schema[i]) := by
  simp [fix_types, List.getElem?_map, List.getElem?_eq_getElem hi]

theorem colCells_fix_types (t : Table) (i : Nat) (hi : i < t.schema.length) :
    colCells (fix_types t) i =
      (colCells t i).map (applyAction (classifyName t.schema (t.schema[i]).name)) := by
  simp only [colCells, fix_types, List.filterMap_map, List.map_filterMap]
  apply List.filterMap_congr
  intro row _
  show (fixRow t.schema t.schema row)[i]? = _
  rw [fixRow, getElem?_zipWithV, List.getElem?_eq_getElem hi]
  rfl

/-- **C1.** After the schema-normalization stage (`fix_types`), every
column named in the integer allowlist has declared type integer and holds
integer values, every column whose name ends in `_date` and whose declared
type was string has declared type date and holds date values, and every
other column keeps its schema entry and its values unchanged.  The value
clauses assume the input cells are well-formed for their classification
(a malformed cell would become null under the permissive cast, as §4.1 of
the spec documents). -/
theorem claim1_normalization_invariant (t : Table)
    (hnd : (t.schema.map ColInfo.name).Nodup)
    (hwf : ∀ i, (hi : i < t.schema.length) → ∀ v ∈ colCells t i,
      (t.schema[i].name ∈ intcols → intCastableB v = true) ∧
      (t.schema[i].name ∉ intcols → strEndsWith t.schema[i].name "_date" = true →
        t.schema[i].dtype = .string → dateParseableB v = true)) :
    ∀ i, (hi : i < t.schema.length) →
      (t.schema[i].name ∈ intcols →
        (fix_types t).schema[i]? = some { t.schema[i] with dtype := .integer } ∧
        ∀ v ∈ colCells (fix_types t) i, v.isIntV = true) ∧
      (t.schema[i].name ∉ intcols → strEndsWith t.schema[i].name "_date" = true →
        t.schema[i].dtype = .string →
        (fix_types t).schema[i]? = some { t.schema[i] with dtype := .date } ∧
        ∀ v ∈ colCells (fix_types t) i, v.isDateV = true) ∧
      (t.schema[i].name ∉ intcols →
        ¬ (strEndsWith t.schema[i].name "_date" = true ∧ t.schema[i].dtype = .string) →
        (fix_types t).schema[i]? = some t.schema[i] ∧
        colCells (fix_types t) i = colCells t i) := by
  intro i hi
  have hsome : t.schema[i]? = some t.schema[i] := List.getElem?_eq_getElem hi
  refine ⟨?_, ?_, ?_⟩
  · intro hmem
    have hcl : classifyName t.schema t.schema[i].name = .castInteger := by
      simp [classifyName, hmem]
    constructor
    · rw [fixTypes_schema_getElem? t i hi]
      simp [fixEntry, hcl, actionDtype]
    · intro v hv
      rw [colCells_fix_types t i hi, hcl] at hv
      simp only [List.mem_map] at hv
      obtain ⟨w, hw, rfl⟩ := hv
      have hcast := ((hwf i hi w hw).1 hmem)
      cases w with
      | int n => rfl
      | str s =>
        simp only [intCastableB, Option.isSome_iff_exists] at hcast
        obtain ⟨k, hk⟩ := hcast
        simp [applyAction, castInt, hk, Value.isIntV]
      | date d => exact Bool.noConfusion hcast
      | null => exact Bool.noConfusion hcast
  · intro hmem hsuf hstr
    have hdict : dictDtype t.schema t.schema[i].name = some DType.string := by
      rw [dictDtype_nodup t.schema hnd i t.schema[i] hsome, hstr]
    have hcl : classifyName t.schema t.schema[i].name = .parseDate8 := by
      simp [classifyName, hmem, hsuf, hdict]
    constructor
    · rw [fixTypes_schema_getElem? t i hi]
      simp [fixEntry, hcl, actionDtype]
    · intro v hv
      rw [colCells_fix_types t i hi, hcl] at hv
      simp only [List.mem_map] at hv
      obtain ⟨w, hw, rfl⟩ := hv
      have hpar := ((hwf i hi w hw).2 hmem hsuf hstr)
      cases w with
      | date d => rfl
      | str s =>
        simp only [dateParseableB, Option.isSome_iff_exists] at hpar
        obtain ⟨d, hd⟩ := hpar
        simp [applyAction, toDateValue, hd, Value.isDateV]
      | int n => exact Bool.noConfusion hpar
      | null => exact Bool.noConfusion hpar
  · intro hmem hno
    have hdict : dictDtype t.schema t.schema[i].name = some (t.schema[i].dtype) :=
      dictDtype_nodup t.schema hnd i t.schema[i] hsome
    have hcl : classifyName t.schema t.schema[i].name = .keep := by
      simp only [classifyName, if_neg hmem, hdict]
      rw [if_neg]
      intro hcon
      exact hno ⟨hcon.1, by simpa using hcon.2⟩
    constructor
    · rw [fixTypes_schema_getElem? t i hi]
      simp [fixEntry, hcl, actionDtype]
    · rw [colCells_fix_types t i hi, hcl]
      have hid : applyAction Action.keep = id := funext fun v => rfl
      rw [hid, List.map_id]

/-! ### Column references and SQL comparison semantics

Expressions such as `policyDF.start_date` resolve a column by name and
read the row's cell at that position.  SQL comparisons against a null
comparand yield "unknown", which `when`, `join` and `filter` all treat as
"not satisfied"; the Boolean functions below therefore return `false`
whenever either side is null, exactly the spec's §7 contract. -/

/-- Value of column `n` in `row` under `schema` (first matching name). -/
def valueOf (schema : List ColInfo) (row : List Value) (n : String) : Value :=
  match schema.findIdx? (fun c => c.name == n) with
  | some i => row.getD i .null
  | none => .null

/-- SQL equality test: true only when both sides are non-null and equal. -/
def sqlEqB : Value → Value → Bool
  | .null, _ => false
  | _, .null => false
  | v, w => v == w

/-- SQL `<=` test: true only when both sides are non-null, comparable and
ordered; dates compare chronologically, integers numerically. -/
def sqlLeB : Value → Value → Bool
  | .date a, .date b => decide (a.toNat ≤ b.toNat)
  | .int a, .int b => decide (a ≤ b)
  | _, _ => false

/-! ### The derived `status` column (03_transformation.ipynb cell 8) -/

/-- The expression `when(start_date == inception_date, "New Business")
.otherwise("Renewal")`, evaluated on one row: a null comparison is not
true, so it falls to the `otherwise` branch. -/
def statusValue (schema : List ColInfo) (row : List Value) : Value :=
  if sqlEqB (valueOf schema row "start_date") (valueOf schema row "inception_date") then
    .str "New Business"
  else
    .str "Renewal"

/-- `withColumn("status", ...)`: replaces an existing `status` column or
appends a new one; the column is declared non-nullable because both
branches of the conditional are non-null literals (the notebooks'
`printSchema` records `status: string (nullable = false)`). -/
def withStatus (t : Table) : Table :=
  match t.schema.findIdx? (fun c => c.name == "status") with
  | some i =>
    { schema := t.schema.set i ⟨"status", .string, false⟩,
      rows := t.rows.map (fun r => r.set i (statusValue t.schema r)) }
  | none =>
    { schema := t.schema ++ [⟨"status", .string, false⟩],
      rows := t.rows.map (fun r => r ++ [statusValue t.schema r]) }

/-! ### The relational join stage (03_transformation.ipynb cells 16-22,
06_explain_plan.ipynb cells 16-22) -/

/-- The join predicate `(policyDF.policy == claimsDF.policy) &
(policyDF.start_date <= claimsDF.incident_date) &
(policyDF.end_date >= claimsDF.incident_date)`. -/
def joinPred (ls rs : List ColInfo) (l r : List Value) : Bool :=
  sqlEqB (valueOf ls l "policy") (valueOf rs r "policy") &&
  sqlLeB (valueOf ls l "start_date") (valueOf rs r "incident_date") &&
  sqlLeB (valueOf rs r "incident_date") (valueOf ls l "end_date")

/-- The left-right row pairs an inner join retains. -/
def innerJoinPairs (L R : Table) : List (List Value × List Value) :=
  L.rows.flatMap (fun l =>
    (R.rows.filter (fun r => joinPred L.schema R.schema l r)).map (fun r => (l, r)))

/-- `policyDF.join(claimsDF, pred)` (inner mode): the concatenation of
every left-right pair satisfying the predicate; both `policy` columns
coexist in the output until a `drop` removes one. -/
def innerJoin (L R : Table) : Table :=
  { schema := L.schema ++ R.schema,
    rows := L.rows.flatMap (fun l =>
      (R.rows.filter (fun r => joinPred L.schema R.schema l r)).map (fun r => l ++ r)) }

/-- An all-null row of the right-hand schema's width. -/
def nullRow (schema : List ColInfo) : List Value :=
  schema.map (fun _ => Value.null)

/-- `policyDF.join(claimsDF, pred, "left")`: matching combinations, plus
each unmatched left row padded with nulls on the claim side. -/
def leftJoin (L R : Table) : Table :=
  { schema := L.schema ++ R.schema,
    rows := L.rows.flatMap (fun l =>
      match R.rows.filter (fun r => joinPred L.schema R.schema l r) with
      | [] => [l ++ nullRow R.schema]
      | ms => ms.map (fun r => l ++ r)) }

/-! ### Example data

The repository's `data/policy.csv` and `data/claims.csv` are not part of
the source tree, but their contents are recorded verbatim in the notebook
outputs (`show()` of the joined, windowed and pivoted DataFrames); the
tables below transcribe those recorded rows. -/

/-- The claims DataFrame after normalization (4 rows, recorded in the
notebooks' join outputs). -/
def claimsTable : Table :=
  { schema := [⟨"policy", .string, true⟩, ⟨"incident_date", .date, true⟩,
               ⟨"cost", .integer, true⟩],
    rows := [
      [.str "CAR0001", .date ⟨2020, 6, 5⟩, .int 5000],
      [.str "CAR0004", .date ⟨2020, 6, 10⟩, .int 3000],
      [.str "CAR0007", .date ⟨2020, 9, 10⟩, .int 24000],
      [.str "CAR0009", .date ⟨2020, 2, 10⟩, .int 15000]] }

/-- Schema of the left (policy) side of the join, after the `select` in
06_explain_plan.ipynb cell 16. -/
def policyJoinSchema : List ColInfo :=
  [⟨"policy", .string, true⟩, ⟨"make", .string, true⟩, ⟨"vehicle_age", .integer, true⟩,
   ⟨"sum_insured", .integer, true⟩, ⟨"start_date", .date, true⟩,
   ⟨"end_date", .date, true⟩, ⟨"premium", .integer, true⟩]

/-- Policy `CAR0001`, third term (2020-01-01 to 2020-12-31), as recorded. -/
def car0001term3 : List Value :=
  [.str "CAR0001", .str "TOYOTA", .int 3, .int 12000, .date ⟨2020, 1, 1⟩,
   .date ⟨2020, 12, 31⟩, .int 800]

/-- Policy `CAR0002` (term starting 2020-02-10), which has no claims. -/
def car0002row : List Value :=
  [.str "CAR0002", .str "SUBARU", .int 2, .int 14000, .date ⟨2020, 2, 10⟩,
   .date ⟨2021, 2, 9⟩, .int 950]

/-- A one-row policy Table used to exhibit left-join null-filling. -/
def policyOneRow : Table := { schema := policyJoinSchema, rows := [car0002row] }

/-! ### C4: inner-join correctness -/

/-- **C4.** Membership in the inner join is exactly satisfaction of the
predicate: a row is in the output iff it is `l ++ r` for a left row `l`
and right row `r` with `joinPred l r` true.  On the recorded example
data, policy `CAR0001` term 3 (2020-01-01 to 2020-12-31) matches exactly
the claim dated 2020-06-05 with cost 5000. -/
theorem claim4_inner_join_exact :
    (∀ (L R : Table) (row : List Value),
      row ∈ (innerJoin L R).rows ↔
        ∃ l ∈ L.rows, ∃ r ∈ R.rows,
          joinPred L.schema R.schema l r = true ∧ row = l ++ r) ∧
    claimsTable.rows.filter
        (fun r => joinPred policyJoinSchema claimsTable.schema car0001term3 r) =
      [[.str "CAR0001", .date ⟨2020, 6, 5⟩, .int 5000]] := by
  constructor
  · intro L R row
    simp only [innerJoin, List.mem_flatMap, List.mem_map, List.mem_filter]
    constructor
    · rintro ⟨l, hl, r, ⟨hr, hpred⟩, rfl⟩
      exact ⟨l, hl, r, hr, hpred, rfl⟩
    · rintro ⟨l, hl, r, hr, hpred, rfl⟩
      exact ⟨l, hl, r, ⟨hr, hpred⟩, rfl⟩
  · decide

/-! ### C5: left-join completeness -/

/-- **C5.** In left mode every left row appears at least once (as a
prefix of some output row), and a left row with no matching claim appears
with the claim-side columns null-filled. -/
theorem claim5_left_join_completeness (L R : Table) (l : List Value) (hl : l ∈ L.rows) :
    (∃ rest, l ++ rest ∈ (leftJoin L R).rows) ∧
    (R.rows.filter (fun r => joinPred L.schema R.schema l r) = [] →
      l ++ nullRow R.schema ∈ (leftJoin L R).rows) := by
  constructor
  · cases hm : R.rows.filter (fun r => joinPred L.schema R.schema l r) with
    | nil =>
      refine ⟨nullRow R.schema, ?_⟩
      simp only [leftJoin, List.mem_flatMap]
      exact ⟨l, hl, by rw [hm]; simp⟩
    | cons r0 ms =>
      refine ⟨r0, ?_⟩
      simp only [leftJoin, List.mem_flatMap]
      refine ⟨l, hl, ?_⟩
      rw [hm]
      exact List.mem_map_of_mem _ (List.mem_cons_self r0 ms)
  · intro he
    simp only [leftJoin, List.mem_flatMap]
    exact ⟨l, hl, by rw [he]; simp⟩

/-- Witness for C5 at the recorded data: policy `CAR0002` has no claims,
so its left-join row is null-filled on the claim side. -/
theorem claim5_witness :
    (∃ rest, car0002row ++ rest ∈ (leftJoin policyOneRow claimsTable).rows) ∧
    (claimsTable.rows.filter
        (fun r => joinPred policyOneRow.schema claimsTable.schema car0002row r) = [] →
      car0002row ++ nullRow claimsTable.schema ∈ (leftJoin policyOneRow claimsTable).rows) :=
  claim5_left_join_completeness policyOneRow claimsTable car0002row (by decide)

/-! ### C8: null comparands never match and never raise -/

theorem sqlEqB_null_left (w : Value) : sqlEqB .null w = false := by
  cases w <;> rfl

theorem sqlEqB_null_right (v : Value) : sqlEqB v .null = false := by
  cases v <;> rfl

theorem sqlLeB_null_left (w : Value) : sqlLeB .null w = false := by
  cases w <;> rfl

theorem sqlLeB_null_right (v : Value) : sqlLeB v .null = false := by
  cases v <;> rfl

theorem joinPred_false_of_start_null (ls rs : List ColInfo) (l : List Value)
    (h : valueOf ls l "start_date" = .null) (r : List Value) :
    joinPred ls rs l r = false := by
  simp [joinPred, h, sqlLeB_null_left]

/-- **C8.** A null comparand anywhere in the join predicate (either
`policy`, the policy row's `start_date` or `end_date`, or the claim row's
`incident_date`) makes predicate evaluation yield "no match" — the total
Boolean function returns `false`, never an error — so the pair is
excluded from the inner join's pairs; and a left row whose `start_date`
is null matches nothing, so in left mode it appears null-filled. -/
theorem claim8_null_comparand (L R : Table) (l r : List Value)
    (h : valueOf L.schema l "policy" = .null ∨ valueOf L.schema l "start_date" = .null ∨
         valueOf L.schema l "end_date" = .null ∨ valueOf R.schema r "policy" = .null ∨
         valueOf R.schema r "incident_date" = .null) :
    joinPred L.schema R.schema l r = false ∧
    (l, r) ∉ innerJoinPairs L R ∧
    (valueOf L.schema l "start_date" = .null → l ∈ L.rows →
      l ++ nullRow R.schema ∈ (leftJoin L R).rows) := by
  have hpred : joinPred L.schema R.schema l r = false := by
    rcases h with h | h | h | h | h
    · simp [joinPred, h, sqlEqB_null_left]
    · simp [joinPred, h, sqlLeB_null_left]
    · simp [joinPred, h, sqlLeB_null_right]
    · simp [joinPred, h, sqlEqB_null_right]
    · simp [joinPred, h, sqlLeB_null_left, sqlLeB_null_right]
  refine ⟨hpred, ?_, ?_⟩
  · intro hmem
    simp only [innerJoinPairs, List.mem_flatMap, List.mem_map, List.mem_filter] at hmem
    obtain ⟨l', _, r', ⟨_, hp⟩, heq⟩ := hmem
    obtain ⟨rfl, rfl⟩ : l' = l ∧ r' = r := by
      constructor <;> [exact congrArg Prod.fst heq; exact congrArg Prod.snd heq]
    rw [hpred] at hp
    exact Bool.noConfusion hp
  · intro hnull hl
    have he : R.rows.filter (fun r' => joinPred L.schema R.schema l r') = [] := by
      apply List.filter_eq_nil_iff.mpr
      intro r' _
      simp [joinPred_false_of_start_null L.schema R.schema l hnull r']
    simp only [leftJoin, List.mem_flatMap]
    exact ⟨l, hl, by rw [he]; simp⟩

/-- Witness for C8: a policy row with a null `start_date` against the
first recorded claim row. -/
theorem claim8_witness :
    let lrow := [Value.str "CAR0001", Value.str "TOYOTA", Value.int 3, Value.int 12000,
                 Value.null, Value.date ⟨2020, 12, 31⟩, Value.int 800]
    let L : Table := { schema := policyJoinSchema, rows := [lrow] }
    let rrow := [Value.str "CAR0001", Value.date ⟨2020, 6, 5⟩, Value.int 5000]
    joinPred L.schema claimsTable.schema lrow rrow = false ∧
    (lrow, rrow) ∉ innerJoinPairs L claimsTable ∧
    (valueOf L.schema lrow "start_date" = .null → lrow ∈ L.rows →
      lrow ++ nullRow claimsTable.schema ∈ (leftJoin L claimsTable).rows) :=
  claim8_null_comparand _ claimsTable _ _ (Or.inr (Or.inl (by decide)))

/-! ### C3 and C10: the derived status column -/

theorem sqlEqB_date_iff (a b : Date) : sqlEqB (.date a) (.date b) = true ↔ a = b := by
  simp [sqlEqB]

/-- **C3.** The status stage is a pure per-row map (no cross-row state),
and on any row whose `start_date` and `inception_date` are dates `d1` and
`d2`, the derived value is `"New Business"` iff `d1 = d2` and
`"Renewal"` iff `d1 ≠ d2`. -/
theorem claim3_status_iff (t : Table)
    (hnone : t.schema.findIdx? (fun c => c.name == "status") = none)
    (r : List Value) (_hr : r ∈ t.rows) (d1 d2 : Date)
    (h1 : valueOf t.schema r "start_date" = .date d1)
    (h2 : valueOf t.schema r "inception_date" = .date d2) :
    (withStatus t).rows = t.rows.map (fun row => row ++ [statusValue t.schema row]) ∧
    (statusValue t.schema r = .str "New Business" ↔ d1 = d2) ∧
    (statusValue t.schema r = .str "Renewal" ↔ d1 ≠ d2) := by
  have hval : statusValue t.schema r =
      (if d1 = d2 then Value.str "New Business" else Value.str "Renewal") := by
    unfold statusValue
    rw [h1, h2]
    by_cases hd : d1 = d2
    · rw [if_pos ((sqlEqB_date_iff d1 d2).mpr hd), if_pos hd]
    · rw [if_neg (fun hc => hd ((sqlEqB_date_iff d1 d2).mp hc)), if_neg hd]
  refine ⟨by simp [withStatus, hnone], ?_, ?_⟩
  · rw [hval]
    by_cases hd : d1 = d2 <;> simp [hd]
  · rw [hval]
    by_cases hd : d1 = d2 <;> simp [hd]

/-- Witness for C3 on a concrete two-column row with equal dates. -/
theorem claim3_witness :
    let t : Table := { schema := [⟨"start_date", .date, true⟩, ⟨"inception_date", .date, true⟩],
                       rows := [[.date ⟨2018, 1, 1⟩, .date ⟨2018, 1, 1⟩]] }
    let r : List Value := [.date ⟨2018, 1, 1⟩, .date ⟨2018, 1, 1⟩]
    (withStatus t).rows = t.rows.map (fun row => row ++ [statusValue t.schema row]) ∧
    (statusValue t.schema r = .str "New Business" ↔ (⟨2018, 1, 1⟩ : Date) = ⟨2018, 1, 1⟩) ∧
    (statusValue t.schema r = .str "Renewal" ↔ (⟨2018, 1, 1⟩ : Date) ≠ ⟨2018, 1, 1⟩) :=
  claim3_status_iff _ (by decide) _ (by decide) ⟨2018, 1, 1⟩ ⟨2018, 1, 1⟩
    (by decide) (by decide)

/-- **C10.** For every input row — including rows with a null
`start_date` or `inception_date` — the derived status is one of the two
non-null string values `"New Business"` / `"Renewal"` (a null comparison
falls to the `otherwise` branch, yielding `"Renewal"`), and the appended
`status` column is declared non-nullable. -/
theorem claim10_status_nonnull (t : Table)
    (hnone : t.schema.findIdx? (fun c => c.name == "status") = none)
    (r : List Value) (_hr : r ∈ t.rows) :
    (statusValue t.schema r = .str "New Business" ∨
      statusValue t.schema r = .str "Renewal") ∧
    statusValue t.schema r ≠ .null ∧
    ((valueOf t.schema r "start_date" = .null ∨
      valueOf t.schema r "inception_date" = .null) →
      statusValue t.schema r = .str "Renewal") ∧
    (withStatus t).schema = t.schema ++ [⟨"status", .string, false⟩] := by
  refine ⟨?_, ?_, ?_, by simp [withStatus, hnone]⟩
  · unfold statusValue
    split
    · exact Or.inl rfl
    · exact Or.inr rfl
  · unfold statusValue
    split <;> simp
  · intro h
    unfold statusValue
    rw [if_neg]
    rcases h with h | h
    · rw [h, sqlEqB_null_left]
      simp
    · rw [h, sqlEqB_null_right]
      simp

/-- Witness for C10 on a row whose `start_date` is null. -/
theorem claim10_witness :
    let t : Table := { schema := [⟨"start_date", .date, true⟩, ⟨"inception_date", .date, true⟩],
                       rows := [[.null, .date ⟨2020, 1, 1⟩]] }
    let r : List Value := [.null, .date ⟨2020, 1, 1⟩]
    (statusValue t.schema r = .str "New Business" ∨
      statusValue t.schema r = .str "Renewal") ∧
    statusValue t.schema r ≠ .null ∧
    ((valueOf t.schema r "start_date" = .null ∨
      valueOf t.schema r "inception_date" = .null) →
      statusValue t.schema r = .str "Renewal") ∧
    (withStatus t).schema = t.schema ++ [⟨"status", .string, false⟩] :=
  claim10_status_nonnull _ (by decide) _ (by decide)

/-! ### C6: partitioned ranking and running aggregate
(06_explain_plan.ipynb cell 24) -/

/-- Ascending ordering used by `orderBy` (nulls first, dates
chronological, integers numeric). -/
def ordLtB : Value → Value → Bool
  | .null, .null => false
  | .null, _ => true
  | _, .null => false
  | .date a, .date b => decide (a.toNat < b.toNat)
  | .int a, .int b => decide (a < b)
  | _, _ => false

/-- Non-strict version of `ordLtB` (less-than or equal ordering keys). -/
def ordLeB (v w : Value) : Bool := ordLtB v w || v == w

/-- The partition of `r`: all rows sharing its `policy` value
(`Window.partitionBy("policy")`; grouping equality, nulls together). -/
def partitionOf (t : Table) (r : List Value) : List (List Value) :=
  t.rows.filter (fun x => valueOf t.schema x "policy" == valueOf t.schema r "policy")

/-- Ordering key of a row (`orderBy("start_date")`). -/
def keyOf (t : Table) (r : List Value) : Value :=
  valueOf t.schema r "start_date"

/-- `rank().over(Window.partitionBy("policy").orderBy("start_date"))`:
1-based competition rank — one more than the number of partition rows
with a strictly smaller ordering key. -/
def rankOf (t : Table) (r : List Value) : Nat :=
  1 + (partitionOf t r).countP (fun x => ordLtB (keyOf t x) (keyOf t r))

/-- `F.sum("premium").over(Window.partitionBy("policy")
.orderBy("start_date"))`: with an ordered window the default frame sums
over all partition rows whose key is ≤ the current row's key (ties
included together); null premiums are ignored by `sum`. -/
def runTotalOf (t : Table) (r : List Value) : Int :=
  ((partitionOf t r).filter (fun x => ordLeB (keyOf t x) (keyOf t r))).foldr
    (fun x acc =>
      match valueOf t.schema x "premium" with
      | .int n => n + acc
      | _ => acc) 0

/-- `concat(policyDF.policy, lit("~"), col("policy_term"))`: string
concatenation of the partition key, the separator and the rank; null
policy propagates to null. -/
def policyIdVal (t : Table) (r : List Value) : Value :=
  match valueOf t.schema r "policy" with
  | .str s => .str (s ++ "~" ++ toString (rankOf t r))
  | _ => .null

/-- The windowing stage: appends `policy_term` (rank), `total_premium`
(running total) and `policy_id` (composite key) to every row.  `rank`
never returns null, hence `policy_term` is declared non-nullable. -/
def windowStage (t : Table) : Table :=
  { schema := t.schema ++ [⟨"policy_term", .integer, false⟩,
      ⟨"total_premium", .integer, true⟩, ⟨"policy_id", .string, true⟩],
    rows := t.rows.map (fun r =>
      r ++ [.int (rankOf t r), .int (runTotalOf t r), policyIdVal t r]) }

/-- The `policy` / `start_date` / `premium` projection of the 16-row
policy DataFrame, rows in source order, values as recorded in
06_explain_plan.ipynb cells 22 and 24. -/
def policyWindowTable : Table :=
  { schema := [⟨"policy", .string, true⟩, ⟨"start_date", .date, true⟩,
               ⟨"premium", .integer, true⟩],
    rows := [
      [.str "CAR0001", .date ⟨2018, 1, 1⟩, .int 1000],
      [.str "CAR0001", .date ⟨2019, 1, 1⟩, .int 900],
      [.str "CAR0001", .date ⟨2020, 1, 1⟩, .int 800],
      [.str "CAR0002", .date ⟨2020, 2, 10⟩, .int 950],
      [.str "CAR0003", .date ⟨2018, 3, 15⟩, .int 700],
      [.str "CAR0003", .date ⟨2019, 3, 15⟩, .int 600],
      [.str "CAR0003", .date ⟨2020, 3, 15⟩, .int 550],
      [.str "CAR0004", .date ⟨2019, 4, 2⟩, .int 750],
      [.str "CAR0004", .date ⟨2020, 4, 2⟩, .int 700],
      [.str "CAR0005", .date ⟨2020, 5, 16⟩, .int 400],
      [.str "CAR0006", .date ⟨2020, 6, 18⟩, .int 300],
      [.str "CAR0007", .date ⟨2020, 7, 13⟩, .int 1600],
      [.str "CAR0008", .date ⟨2020, 8, 11⟩, .int 1800],
      [.str "CAR0009", .date ⟨2019, 9, 17⟩, .int 4800],
      [.str "CAR0009", .date ⟨2020, 9, 17⟩, .int 3500],
      [.str "CAR0010", .date ⟨2020, 10, 15⟩, .int 300]] }

/-- **C6.** The windowing stage appends, per row, a 1-based competition
rank within the row's partition and an inclusive running total over the
partition rows with ordering key ≤ the current key (ties share rank and
total); on the recorded 16-row data, the `CAR0001` partition ordered by
`start_date` gets ranks 1, 2, 3 and running totals 1000, 1900, 2700. -/
theorem claim6_window_rank_total :
    (∀ t : Table, (windowStage t).rows = t.rows.map (fun r =>
      r ++ [.int (rankOf t r), .int (runTotalOf t r), policyIdVal t r])) ∧
    (∀ (t : Table) (r : List Value), 1 ≤ rankOf t r) ∧
    (∀ (t : Table) (r r' : List Value),
      valueOf t.schema r "policy" = valueOf t.schema r' "policy" →
      keyOf t r = keyOf t r' →
      rankOf t r = rankOf t r' ∧ runTotalOf t r = runTotalOf t r') ∧
    (windowStage policyWindowTable).rows.take 3 = [
      [.str "CAR0001", .date ⟨2018, 1, 1⟩, .int 1000, .int 1, .int 1000, .str "CAR0001~1"],
      [.str "CAR0001", .date ⟨2019, 1, 1⟩, .int 900, .int 2, .int 1900, .str "CAR0001~2"],
      [.str "CAR0001", .date ⟨2020, 1, 1⟩, .int 800, .int 3, .int 2700, .str "CAR0001~3"]] := by
  refine ⟨fun t => rfl, fun t r => Nat.le_add_right 1 _, ?_, by decide⟩
  intro t r r' hp hk
  have hpart : partitionOf t r = partitionOf t r' := by
    unfold partitionOf
    rw [hp]
  constructor
  · unfold rankOf
    rw [hpart, hk]
  · unfold runTotalOf
    rw [hpart, hk]

/-- Witness for C6: the tie clauses applied at the first recorded row. -/
theorem claim6_witness :
    rankOf policyWindowTable [.str "CAR0001", .date ⟨2018, 1, 1⟩, .int 1000] =
      rankOf policyWindowTable [.str "CAR0001", .date ⟨2018, 1, 1⟩, .int 1000] ∧
    runTotalOf policyWindowTable [.str "CAR0001", .date ⟨2018, 1, 1⟩, .int 1000] =
      runTotalOf policyWindowTable [.str "CAR0001", .date ⟨2018, 1, 1⟩, .int 1000] :=
  claim6_window_rank_total.2.2.1 policyWindowTable _ _ rfl rfl

/-! ### C7: pivot / cross-tabulation (06_explain_plan.ipynb cell 28)

`crosstab` renders the two key columns as strings, emits one output row
per distinct row-key value, and one counting column per distinct
column-key value in lexicographic order (as the recorded output shows:
AUDI, BMW, ..., TOYOTA). -/

/-- String rendering of a cell, as used for crosstab keys and column
names. -/
def cellToString : Value → String
  | .str s => s
  | .int n => toString n
  | .date d => toString d.year ++ "-" ++ toString d.month ++ "-" ++ toString d.day
  | .null => "null"

/-- One step of first-occurrence deduplication. -/
def dedupStep (acc : List String) (x : String) : List String :=
  if x ∈ acc then acc else acc ++ [x]

/-- Distinct values in order of first appearance. -/
def dedupFirst (l : List String) : List String :=
  l.foldl dedupStep []

/-- Lexicographic comparison of character lists by code point. -/
def lexLe : List Char → List Char → Bool
  | [], _ => true
  | _ :: _, [] => false
  | a :: as, b :: bs =>
    if a.toNat < b.toNat then true
    else if b.toNat < a.toNat then false
    else lexLe as bs

/-- Lexicographic string comparison. -/
def strLeB (s t : String) : Bool := lexLe s.data t.data

/-- Insert a string into a lexicographically sorted list. -/
def insertSorted (s : String) : List String → List String
  | [] => [s]
  | x :: xs => if strLeB s x then s :: x :: xs else x :: insertSorted s xs

/-- Insertion sort by `strLeB`. -/
def sortStrings : List String → List String
  | [] => []
  | x :: xs => insertSorted x (sortStrings xs)

/-- The distinct row-key values, in order of first appearance. -/
def rowKeys (t : Table) (rk : String) : List String :=
  dedupFirst (t.rows.map (fun r => cellToString (valueOf t.schema r rk)))

/-- The distinct column-key values, sorted lexicographically. -/
def colKeys (t : Table) (ck : String) : List String :=
  sortStrings (dedupFirst (t.rows.map (fun r => cellToString (valueOf t.schema r ck))))

/-- Number of source rows whose row-key renders as `a` and column-key as
`b`. -/
def countPair (t : Table) (rk ck a b : String) : Nat :=
  t.rows.countP (fun r =>
    cellToString (valueOf t.schema r rk) == a &&
    cellToString (valueOf t.schema r ck) == b)

/-- `df.crosstab(rk, ck)`: the key column named `rk_ck`, one counting
column per distinct column-key value, one row per distinct row-key value;
counts are non-null. -/
def crosstab (t : Table) (rk ck : String) : Table :=
  { schema := ⟨rk ++ "_" ++ ck, .string, true⟩ ::
      (colKeys t ck).map (fun b => ⟨b, .integer, false⟩),
    rows := (rowKeys t rk).map (fun a =>
      .str a :: (colKeys t ck).map (fun b => .int (countPair t rk ck a b))) }

theorem mem_foldl_dedupStep (l : List String) :
    ∀ (acc : List String) (x : String),
      x ∈ l.foldl dedupStep acc ↔ x ∈ acc ∨ x ∈ l := by
  induction l with
  | nil => simp
  | cons a as ih =>
    intro acc x
    rw [List.foldl_cons, ih]
    unfold dedupStep
    by_cases ha : a ∈ acc
    · rw [if_pos ha]
      simp only [List.mem_cons]
      constructor
      · rintro (h | h)
        · exact Or.inl h
        · exact Or.inr (Or.inr h)
      · rintro (h | rfl | h)
        · exact Or.inl h
        · exact Or.inl ha
        · exact Or.inr h
    · rw [if_neg ha]
      simp only [List.mem_append, List.mem_singleton, List.mem_cons]
      tauto

theorem nodup_foldl_dedupStep (l : List String) :
    ∀ acc : List String, acc.Nodup → (l.foldl dedupStep acc).Nodup := by
  induction l with
  | nil => intro acc h; simpa using h
  | cons a as ih =>
    intro acc h
    rw [List.foldl_cons]
    apply ih
    unfold dedupStep
    by_cases ha : a ∈ acc
    · rwa [if_pos ha]
    · rw [if_neg ha]
      simp [List.nodup_append, h, ha]

theorem nodup_dedupFirst (l : List String) : (dedupFirst l).Nodup :=
  nodup_foldl_dedupStep l [] List.nodup_nil

theorem lexLe_total : ∀ a b : List Char, lexLe a b = true ∨ lexLe b a = true := by
  intro a
  induction a with
  | nil => intro b; left; rfl
  | cons x xs ih =>
    intro b
    cases b with
    | nil => right; rfl
    | cons y ys =>
      simp only [lexLe]
      rcases Nat.lt_trichotomy x.toNat y.toNat with h | h | h

      · left
        rw [if_pos h]
      · have hn : ¬ x.toNat < y.toNat := by omega
        have hn' : ¬ y.toNat < x.toNat := by omega
        rw [if_neg hn, if_neg hn', if_neg hn', if_neg hn]
        exact ih ys
      · right
        rw [if_pos h]

theorem lexLe_trans : ∀ a b c : List Char,
    lexLe a b = true → lexLe b c = true → lexLe a c = true := by
  intro a
  induction a with
  | nil => intro b c _ _; rfl
  | cons x xs ih =>
    intro b c hab hbc
    cases b with
    | nil => exact absurd hab (by simp [lexLe])
    | cons y ys =>
      cases c with
      | nil => exact absurd hbc (by simp [lexLe])
      | cons z zs =>
        simp only [lexLe] at hab hbc ⊢
        split_ifs at hab hbc ⊢ <;>
          first
            | rfl
            | omega
            | exact ih ys zs hab hbc

theorem strLeB_total (s t : String) : strLeB s t = true ∨ strLeB t s = true :=
  lexLe_total s.data t.data

theorem strLeB_trans (s t u : String) (h1 : strLeB s t = true) (h2 : strLeB t u = true) :
    strLeB s u = true :=
  lexLe_trans s.data t.data u.data h1 h2

theorem mem_insertSorted (s x : String) :
    ∀ l : List String, x ∈ insertSorted s l ↔ x = s ∨ x ∈ l := by
  intro l
  induction l with
  | nil => simp [insertSorted]
  | cons a as ih =>
    unfold insertSorted
    by_cases hsa : strLeB s a = true
    · rw [if_pos hsa]
      simp only [List.mem_cons]
    · rw [if_neg hsa]
      simp only [List.mem_cons, ih]
      tauto

theorem nodup_insertSorted (s : String) :
    ∀ l : List String, s ∉ l → l.Nodup → (insertSorted s l).Nodup := by
  intro l
  induction l with
  | nil => intro _ _; simp [insertSorted]
  | cons a as ih =>
    intro hs h
    rw [List.nodup_cons] at h
    simp only [List.mem_cons, not_or] at hs
    unfold insertSorted
    by_cases hsa : strLeB s a = true
    · rw [if_pos hsa, List.nodup_cons, List.nodup_cons]
      exact ⟨by simp [List.mem_cons, hs.1, hs.2], h.1, h.2⟩
    · rw [if_neg hsa, List.nodup_cons]
      constructor
      · rw [mem_insertSorted]
        rintro (rfl | hmem)
        · exact hs.1 rfl
        · exact h.1 hmem
      · exact ih hs.2 h.2

theorem pairwise_insertSorted (s : String) :
    ∀ l : List String, l.Pairwise (fun a b => strLeB a b = true) →
      (insertSorted s l).Pairwise (fun a b => strLeB a b = true) := by
  intro l
  induction l with
  | nil => intro _; simp [insertSorted]
  | cons a as ih =>
    intro h
    rw [List.pairwise_cons] at h
    unfold insertSorted
    by_cases hsa : strLeB s a = true
    · rw [if_pos hsa, List.pairwise_cons]
      refine ⟨?_, List.pairwise_cons.mpr h⟩
      intro y hy
      rcases List.mem_cons.mp hy with rfl | hy'
      · exact hsa
      · exact strLeB_trans s a y hsa (h.1 y hy')
    · rw [if_neg hsa, List.pairwise_cons]
      constructor
      · intro y hy
        rcases (mem_insertSorted s y as).mp hy with h1 | hy'
        · subst h1
          exact (strLeB_total y a).resolve_left hsa
        · exact h.1 y hy'
      · exact ih h.2

theorem mem_sortStrings (x : String) :
    ∀ l : List String, x ∈ sortStrings l ↔ x ∈ l := by
  intro l
  induction l with
  | nil => simp [sortStrings]
  | cons a as ih =>
    unfold sortStrings
    rw [mem_insertSorted, ih, List.mem_cons]

theorem nodup_sortStrings : ∀ l : List String, l.Nodup → (sortStrings l).Nodup := by
  intro l
  induction l with
  | nil => intro _; simp [sortStrings]
  | cons a as ih =>
    intro h
    rw [List.nodup_cons] at h
    unfold sortStrings
    exact nodup_insertSorted a _ (fun hm => h.1 ((mem_sortStrings a as).mp hm)) (ih h.2)

theorem pairwise_sortStrings :
    ∀ l : List String, (sortStrings l).Pairwise (fun a b => strLeB a b = true) := by
  intro l
  induction l with
  | nil => simp [sortStrings]
  | cons a as ih =>
    unfold sortStrings
    exact pairwise_insertSorted a _ ih

/-- The `policy` / `make` / `status` projection of the 16-row policy
DataFrame after the status stage, values as recorded in the notebooks
(statuses from the SparkSQL notebook's ordered output). -/
def statusMakeTable : Table :=
  { schema := [⟨"policy", .string, true⟩, ⟨"make", .string, true⟩,
               ⟨"status", .string, false⟩],
    rows := [
      [.str "CAR0001", .str "TOYOTA", .str "New Business"],
      [.str "CAR0001", .str "TOYOTA", .str "Renewal"],
      [.str "CAR0001", .str "TOYOTA", .str "Renewal"],
      [.str "CAR0002", .str "SUBARU", .str "New Business"],
      [.str "CAR0003", .str "FORD", .str "New Business"],
      [.str "CAR0003", .str "FORD", .str "Renewal"],
      [.str "CAR0003", .str "FORD", .str "Renewal"],
      [.str "CAR0004", .str "MAZDA", .str "New Business"],
      [.str "CAR0004", .str "MAZDA", .str "New Business"],
      [.str "CAR0005", .str "HOLDEN", .str "New Business"],
      [.str "CAR0006", .str "SUZUKI", .str "New Business"],
      [.str "CAR0007", .str "BMW", .str "New Business"],
      [.str "CAR0008", .str "AUDI", .str "New Business"],
      [.str "CAR0009", .str "TESLA", .str "New Business"],
      [.str "CAR0009", .str "TESLA", .str "Renewal"],
      [.str "CAR0010", .str "HYUNDAI", .str "New Business"]] }

/-- The cross-tabulation of `status` by `make` recorded in
06_explain_plan.ipynb cell 28. -/
def ctabExpected : Table :=
  { schema := [⟨"status_make", .string, true⟩,
      ⟨"AUDI", .integer, false⟩, ⟨"BMW", .integer, false⟩, ⟨"FORD", .integer, false⟩,
      ⟨"HOLDEN", .integer, false⟩, ⟨"HYUNDAI", .integer, false⟩,
      ⟨"MAZDA", .integer, false⟩, ⟨"SUBARU", .integer, false⟩,
      ⟨"SUZUKI", .integer, false⟩, ⟨"TESLA", .integer, false⟩,
      ⟨"TOYOTA", .integer, false⟩],
    rows := [
      [.str "New Business", .int 1, .int 1, .int 1, .int 1, .int 1, .int 2, .int 1,
       .int 1, .int 1, .int 1],
      [.str "Renewal", .int 0, .int 0, .int 2, .int 0, .int 0, .int 0, .int 0,
       .int 0, .int 1, .int 2]] }

/-- **C7.** The cross-tabulation has one row per distinct row-key value
and one generated column per distinct column-key value (plus the key
column), the generated columns appear in deterministic lexicographic
order, each cell counts the source rows matching its (row-key,
column-key) pair and is 0 when none match; on the recorded data,
`crosstab status make` reproduces the notebook's output exactly. -/
theorem claim7_crosstab_counts :
    (∀ (t : Table) (rk ck : String),
      (crosstab t rk ck).schema.map ColInfo.name = (rk ++ "_" ++ ck) :: colKeys t ck ∧
      (crosstab t rk ck).rows = (rowKeys t rk).map (fun a =>
        .str a :: (colKeys t ck).map (fun b => .int (countPair t rk ck a b))) ∧
      (rowKeys t rk).Nodup ∧
      (colKeys t ck).Nodup ∧
      (colKeys t ck).Pairwise (fun a b => strLeB a b = true) ∧
      (∀ a b : String,
        (∀ row ∈ t.rows, ¬ (cellToString (valueOf t.schema row rk) = a ∧
          cellToString (valueOf t.schema row ck) = b)) →
        countPair t rk ck a b = 0)) ∧
    crosstab statusMakeTable "status" "make" = ctabExpected := by
  constructor
  · intro t rk ck
    refine ⟨?_, rfl, nodup_dedupFirst _, nodup_sortStrings _ (nodup_dedupFirst _),
      pairwise_sortStrings _, ?_⟩
    · simp only [crosstab, List.map_cons, List.map_map]
      have hid : (ColInfo.name ∘ fun b => (⟨b, .integer, false⟩ : ColInfo)) = id := rfl
      rw [hid, List.map_id]
    · intro a b hnone
      unfold countPair
      rw [List.countP_eq_zero]
      intro r hr
      have h := hnone r hr
      simp only [Bool.and_eq_true, beq_iff_eq]
      exact fun hc => h ⟨hc.1, hc.2⟩
  · decide

/-! ### C9: duplicate output names in a rename/alias sequence
(06_explain_plan.ipynb cells 12-16)

Cell 12 selects eight columns and aliases `inception_date`, `start_date`
and `end_date` all as `inception_date`.  The recorded analyzed plan shows
the result schema `..., inception_date: date, inception_date: date,
inception_date: date, ...` — three coexisting columns with the same name —
and cell 14's passing `assert policyDF.collect() == otherDF.collect()`
shows every aliased column kept its value.  `selectAs` models such a
select: a list of (source column, output alias) pairs. -/

/-- Declared type of the first schema entry named `n` (string if none). -/
def dtypeOfFirst (schema : List ColInfo) (n : String) : DType :=
  match schema.find? (fun c => c.name == n) with
  | some c => c.dtype
  | none => .string

/-- `df.select(col(src).alias(out), ...)`: one output column per select
item, named by its alias, holding the source column's value.  Duplicate
aliases are not merged: each item yields its own output column. -/
def selectAs (t : Table) (items : List (String × String)) : Table :=
  { schema := items.map (fun p => ⟨p.2, dtypeOfFirst t.schema p.1, true⟩),
    rows := t.rows.map (fun r => items.map (fun p => valueOf t.schema r p.1)) }

/-- The normalized policy DataFrame row for `CAR0001` term 3, whose
inception, start and end dates are pairwise distinct. -/
def c9src : Table :=
  { schema := [⟨"policy", .string, true⟩, ⟨"make", .string, true⟩,
               ⟨"vehicle_age", .integer, true⟩, ⟨"sum_insured", .integer, true⟩,
               ⟨"inception_date", .date, true⟩, ⟨"start_date", .date, true⟩,
               ⟨"end_date", .date, true⟩, ⟨"premium", .integer, true⟩],
    rows := [[.str "CAR0001", .str "TOYOTA", .int 3, .int 12000, .date ⟨2018, 1, 1⟩,
              .date ⟨2020, 1, 1⟩, .date ⟨2020, 12, 31⟩, .int 800]] }

/-- The select items of 06_explain_plan.ipynb cell 12: three source
columns are all aliased `inception_date`. -/
def c9items : List (String × String) :=
  [("policy", "policy"), ("make", "make"), ("vehicle_age", "vehicle_age"),
   ("sum_insured", "sum_insured"), ("inception_date", "inception_date"),
   ("start_date", "inception_date"), ("end_date", "inception_date"),
   ("premium", "premium")]

/-- **C9 counterexample.** The duplicate output name is NOT overwritten:
the select succeeds, and the output schema carries the name
`inception_date` three times — not once, as "silently overwritten" would
require — with all three source values (2018-01-01, 2020-01-01,
2020-12-31) retained in the row. -/
theorem claim9_counterexample :
    ¬ (((selectAs c9src c9items).schema.map ColInfo.name).count "inception_date" = 1) ∧
    ((selectAs c9src c9items).schema.map ColInfo.name).count "inception_date" = 3 ∧
    (selectAs c9src c9items).rows =
      [[.str "CAR0001", .str "TOYOTA", .int 3, .int 12000, .date ⟨2018, 1, 1⟩,
        .date ⟨2020, 1, 1⟩, .date ⟨2020, 12, 31⟩, .int 800]] := by
  refine ⟨by decide, by decide, by decide⟩

/-- **C9 (amended).** A rename/alias sequence that produces a duplicate
output column name succeeds without a conflict error (the operation is a
total function producing one output column per select item), the
duplicate names coexist, and every aliased column retains its source
value; nothing is overwritten. -/
theorem claim9_amended_alias_coexist :
    (∀ (t : Table) (items : List (String × String)),
      (selectAs t items).schema.map ColInfo.name = items.map Prod.snd ∧
      (selectAs t items).rows =
        t.rows.map (fun r => items.map (fun p => valueOf t.schema r p.1))) ∧
    ((selectAs c9src c9items).schema.map ColInfo.name).count "inception_date" = 3 ∧
    (selectAs c9src c9items).rows =
      [[.str "CAR0001", .str "TOYOTA", .int 3, .int 12000, .date ⟨2018, 1, 1⟩,
        .date ⟨2020, 1, 1⟩, .date ⟨2020, 12, 31⟩, .int 800]] := by
  refine ⟨?_, by decide, by decide⟩
  intro t items
  constructor
  · show (List.map _ (List.map _ items)) = _
    rw [List.map_map]
    rfl
  · rfl

/-! ### Witnesses on concrete data for the hypothesis-bearing claims -/

/-- A raw CSV-read table: an allowlisted integer column, a string date
column and a plain column, with one well-formed row. -/
def c1tbl : Table :=
  { schema := [⟨"premium", .string, true⟩, ⟨"start_date", .string, true⟩,
               ⟨"make", .string, true⟩],
    rows := [[.str "800", .str "20200101", .str "TOYOTA"]] }

/-- Witness for C1 at a concrete well-formed table: the `premium` column
becomes integer-typed with integer values, the string `start_date` column
becomes date-typed with date values, and `make` is untouched. -/
theorem claim1_witness :
    ((fix_types c1tbl).schema[0]? = some ⟨"premium", DType.integer, true⟩ ∧
      ∀ v ∈ colCells (fix_types c1tbl) 0, v.isIntV = true) ∧
    ((fix_types c1tbl).schema[1]? = some ⟨"start_date", DType.date, true⟩ ∧
      ∀ v ∈ colCells (fix_types c1tbl) 1, v.isDateV = true) ∧
    ((fix_types c1tbl).schema[2]? = some ⟨"make", DType.string, true⟩ ∧
      colCells (fix_types c1tbl) 2 = colCells c1tbl 2) :=
  ⟨(claim1_normalization_invariant c1tbl (by decide) (by decide) 0 (by decide)).1
      (by decide),
   (claim1_normalization_invariant c1tbl (by decide) (by decide) 1 (by decide)).2.1
      (by decide) (by decide) (by decide),
   (claim1_normalization_invariant c1tbl (by decide) (by decide) 2 (by decide)).2.2
      (by decide) (by decide)⟩

/-- Witness for C7's zero-cell clause: no Renewal row has make AUDI, so
that cell counts 0. -/
theorem claim7_witness :
    countPair statusMakeTable "status" "make" "Renewal" "AUDI" = 0 :=
  (claim7_crosstab_counts.1 statusMakeTable "status" "make").2.2.2.2.2 "Renewal" "AUDI"
    (by decide)

end PysparkTut
